import Mathlib

/-!
Verification of the wc-parser chat-log parsing pipeline.

The Rust sources (src/datetime.rs, src/parser.rs, src/models.rs, src/lib.rs)
are shallowly embedded below: strings become `List Char`, `i32` arithmetic
becomes `Int` (the values involved are small dates and times, far from the
i32 range), fallible operations (`unwrap`, `unwrap_or`, indexing) become
`Option`-valued functions where `none` marks a panic, and the regular
expressions of parser.rs are embedded as an explicit regex AST with a
Brzozowski-derivative matcher (for classification / `is_match`) and a
backtracking, leftmost-first capture engine (for extraction / `captures`).
-/

set_option maxHeartbeats 1000000
set_option linter.unusedVariables false

namespace WcParser

/-! ## Numeric date triples and the date-order heuristics (datetime.rs) -/

/-- A numeric date triple.  Fields `a`, `b`, `c` are the components at
indices 0, 1 and 2 of the Rust `Vec<i32>`: the first and second on-the-wire
numeric date tokens and the token identified as the year. -/
structure NDate where
  a : Int
  b : Int
  c : Int
deriving DecidableEq

/-- Component of a triple at an index (Rust `array[index]`).  The pipeline
only ever indexes at 0, 1 and 2; larger indices (a panic in Rust) are mapped
to the last component and never used. -/
def NDate.get (d : NDate) : Nat → Int
  | 0 => d.a
  | 1 => d.b
  | _ => d.c

/-- datetime.rs `is_negative`. -/
def is_negative (number : Int) : Bool := decide (number < 0)

/-- datetime.rs `index_above_value`. -/
def index_above_value (index : Nat) (value : Int) : NDate → Bool :=
  fun array => decide (NDate.get array index > value)

/-- datetime.rs `check_above_12`. -/
def check_above_12 (numeric_dates : List NDate) : Option Bool :=
  if numeric_dates.any (fun d => index_above_value 0 12 d) then some true
  else if numeric_dates.any (fun d => index_above_value 1 12 d) then some false
  else none

/-- Rust `slice::windows(2)`: the list of consecutive pairs. -/
def windows2 {α : Type} : List α → List (α × α)
  | a :: b :: rest => (a, b) :: windows2 (b :: rest)
  | _ => []

/-- The keys (values at `index`) of the triples, in first-occurrence order.
The Rust code groups through a `HashMap` whose value-iteration order is
unspecified; the embedding fixes first-occurrence order, and the aggregation
over groups is proved invariant under permutations of the group list
(claim C10). -/
def group_keys (array : List NDate) (index : Nat) : List Int :=
  array.foldl (fun acc d => if NDate.get d index ∈ acc then acc else acc ++ [NDate.get d index]) []

/-- datetime.rs `group_array_by_value_at_index`, specialised to `NDate`
(the only instantiation used by the pipeline; keys `format!("_{}", v)` are
injective in the value, so grouping is by the component value).  Each group
keeps the input order of its members, matching the `entry().or_default().push()`
accumulation. -/
def group_array_by_value_at_index (array : List NDate) (index : Nat) : List (List NDate) :=
  (group_keys array index).map (fun k => array.filter (fun d => NDate.get d index == k))

/-- The per-group closure body inside datetime.rs `check_decreasing`
(lines 33-45): days-first if the first components ever decrease between
consecutive members, else month-first if the second components ever decrease,
else no signal. -/
def check_decreasing_group (dates : List NDate) : Option Bool :=
  if (windows2 dates).any (fun w => is_negative (w.2.a - w.1.a)) then some true
  else if (windows2 dates).any (fun w => is_negative (w.2.b - w.1.b)) then some false
  else none

/-- The aggregation over per-group results in datetime.rs `check_decreasing`
(lines 48-55). -/
def aggregate_results (groups : List (List NDate)) : Option Bool :=
  if (groups.map check_decreasing_group).any (fun r => r == some true) then some true
  else if (groups.map check_decreasing_group).any (fun r => r == some false) then some false
  else none

/-- datetime.rs `check_decreasing`. -/
def check_decreasing (numeric_dates : List NDate) : Option Bool :=
  aggregate_results (group_array_by_value_at_index numeric_dates 2)

/-- datetime.rs `change_frequency_analysis`: compare the summed absolute
deltas of the first components with those of the second components. -/
def change_frequency_analysis (numeric_dates : List NDate) : Option Bool :=
  let diffs := (windows2 numeric_dates).map
    (fun w => ((w.2.a - w.1.a).natAbs, (w.2.b - w.1.b).natAbs))
  let sums := diffs.foldl (fun acc diff => (acc.1 + diff.1, acc.2 + diff.2)) ((0, 0) : Nat × Nat)
  if sums.1 > sums.2 then some true
  else if sums.1 < sums.2 then some false
  else none

/-- datetime.rs `days_before_months`: the three heuristics combined with
`Option::or_else`, so the first heuristic to produce a resolved answer wins. -/
def days_before_months (numeric_dates : List NDate) : Option Bool :=
  (check_above_12 numeric_dates).orElse (fun _ =>
    (check_decreasing numeric_dates).orElse (fun _ =>
      change_frequency_analysis numeric_dates))

/-- parser.rs lines 261-268 (and 214-221): apply a resolved (or unresolved)
days-first value to the ordered `(first, second, year)` component triple.
Only `Some(false)` swaps; both `None` and `Some(true)` keep the first
component as the day. -/
def apply_days_first (days_first : Option Bool) (d m y : List Char) :
    List Char × List Char × List Char :=
  if days_first = some false then (m, d, y) else (d, m, y)

/-- Specification-side predicate: the first components of consecutive members
of `g` decrease somewhere. -/
def fstDecreases (g : List NDate) : Prop :=
  ∃ i x y, g.get? i = some x ∧ g.get? (i + 1) = some y ∧ y.a < x.a

/-- Specification-side predicate: the second components of consecutive members
of `g` decrease somewhere. -/
def sndDecreases (g : List NDate) : Prop :=
  ∃ i x y, g.get? i = some x ∧ g.get? (i + 1) = some y ∧ y.b < x.b

/-! ## Characters and strings (strings as List Char) -/

/-- The characters of a string literal. -/
def lchars (s : String) : List Char := s.data

/-- Rust `char::is_whitespace` and the regex class `\s`
(the Unicode White_Space set). -/
def rs_whitespace (c : Char) : Bool :=
  c == ' ' || c == '\t' || c == '\n' || c == '\x0b' || c == '\x0c' || c == '\r' ||
  c == '\u0085' || c == ' ' || c == ' ' ||
  decide (0x2000 ≤ c.toNat ∧ c.toNat ≤ 0x200a) ||
  c == ' ' || c == ' ' || c == ' ' || c == ' ' || c == '　'

/-- Rust `str::split` with a character-set pattern: empty pieces are kept and
the result always has at least one piece. -/
def splitOnPred (p : Char → Bool) : List Char → List (List Char)
  | [] => [[]]
  | c :: rest =>
    if p c then [] :: splitOnPred p rest
    else
      match splitOnPred p rest with
      | h :: t => (c :: h) :: t
      | [] => [[c]]

/-- Rust `str::trim`. -/
def trim (s : List Char) : List Char :=
  ((s.dropWhile rs_whitespace).reverse.dropWhile rs_whitespace).reverse

/-- Numeric value of a list of ASCII digits. -/
def digitsVal (s : List Char) : Nat :=
  s.foldl (fun acc c => acc * 10 + (c.toNat - 48)) 0

/-- Rust `str::parse::<u32>`: optional leading `+`, at least one ASCII digit,
range check. -/
def parse_u32 (s : List Char) : Option Nat :=
  let t := match s with
    | '+' :: rest => rest
    | _ => s
  if t.isEmpty then none
  else if t.all Char.isDigit then
    if digitsVal t < 4294967296 then some (digitsVal t) else none
  else none

/-- Digits-and-range part of `str::parse::<i32>`. -/
def parse_i32_digits (sign : Int) (t : List Char) : Option Int :=
  if t.isEmpty then none
  else if t.all Char.isDigit then
    if -2147483648 ≤ sign * (digitsVal t : Int) ∧ sign * (digitsVal t : Int) ≤ 2147483647 then
      some (sign * (digitsVal t : Int))
    else none
  else none

/-- Rust `str::parse::<i32>`: optional sign, at least one ASCII digit,
range check. -/
def parse_i32 (s : List Char) : Option Int :=
  match s with
  | '+' :: rest => parse_i32_digits 1 rest
  | '-' :: rest => parse_i32_digits (-1) rest
  | _ => parse_i32_digits 1 s

/-- Decimal digits of a natural number (Rust integer `Display`). -/
def natToChars (n : Nat) : List Char := Nat.toDigits 10 n

/-- Rust `format!("{}", n)` for an i32. -/
def intToChars (n : Int) : List Char :=
  if n < 0 then '-' :: natToChars n.natAbs else natToChars n.natAbs

/-- Left-pad with `c` to width `n` (Rust `format!("{:0>2}", s)`, and
`format!("{:02}", n)` for the nonnegative numbers that occur here). -/
def padLeft (c : Char) (n : Nat) (s : List Char) : List Char :=
  List.replicate (n - s.length) c ++ s

/-! ## Field normalizer (datetime.rs) -/

/-- datetime.rs `normalize_date`: 2-digit years are assumed to be 20xx;
month and day are zero-padded to two digits. -/
def normalize_date (year month day : List Char) : List Char × List Char × List Char :=
  let normalized_year :=
    if year.length ≤ 2 then '2' :: '0' :: padLeft '0' 2 year else year
  (normalized_year, padLeft '0' 2 month, padLeft '0' 2 day)

/-- The date separators `-`, `/`, `.` of order_date_components. -/
def isDateSep (c : Char) : Bool := c == '-' || c == '/' || c == '.'

/-- The time separators `:`, `.` used by the `[:.]` regex split. -/
def isTimeSep (c : Char) : Bool := c == ':' || c == '.'

/-- datetime.rs `order_date_components`: split the date on `-`, `/`, `.`,
trim the parts, and push a longest part to the end (the year is assumed to
be the longest token).  `none` models the Rust indexing panic when the split
yields fewer than three parts; parts beyond the third are ignored exactly as
in the source. -/
def order_date_components (date : List Char) : Option (List Char × List Char × List Char) :=
  match (splitOnPred isDateSep date).map trim with
  | a :: b :: c :: _ =>
    if c.length = max a.length (max b.length c.length) then some (a, b, c)
    else if b.length = max a.length (max b.length c.length) then some (a, c, b)
    else some (b, c, a)
  | _ => none

/-- datetime.rs `convert_time_12_to_24`; `none` models the panics of the
source (missing minutes part, unparseable hours). -/
def convert_time_12_to_24 (time ampm : List Char) : Option (List Char) :=
  match splitOnPred isTimeSep time with
  | parts0 :: parts1 :: rest =>
    match parse_i32 parts0 with
    | none => none
    | some h =>
      let hours1 := if h = 12 then 0 else h
      let hours2 := if ampm = lchars "PM" then hours1 + 12 else hours1
      match rest with
      | s :: _ => some (padLeft '0' 2 (intToChars hours2) ++ ':' :: parts1 ++ ':' :: s)
      | [] => some (padLeft '0' 2 (intToChars hours2) ++ ':' :: parts1)
  | _ => none

/-- datetime.rs `normalize_time`; `none` models the panic when there is no
minutes part. -/
def normalize_time (time : List Char) : Option (List Char) :=
  match splitOnPred isTimeSep time with
  | hours :: minutes :: rest =>
    some (padLeft '0' 2 hours ++ ':' :: minutes ++ ':' ::
      (match rest with
        | s :: _ => s
        | [] => lchars "00"))
  | _ => none

/-- datetime.rs `normalize_ampm` (`char::is_alphabetic` / `to_uppercase`
restricted to the ASCII am/pm tokens the patterns accept). -/
def normalize_ampm (ampm : List Char) : List Char :=
  (ampm.filter Char.isAlpha).map Char.toUpper

/-! ## chrono timestamp model -/

/-- chrono leap-year rule. -/
def is_leap_year (y : Int) : Bool := (y % 4 == 0 && y % 100 != 0) || y % 400 == 0

/-- Days of a month under chrono's calendar. -/
def days_in_month (y : Int) (m : Nat) : Nat :=
  if m = 2 then (if is_leap_year y then 29 else 28)
  else if m = 4 ∨ m = 6 ∨ m = 9 ∨ m = 11 then 30
  else 31

/-- Validity domain of chrono `NaiveDate::from_ymd_opt` (years limited to
chrono's supported range). -/
def from_ymd_valid (y : Int) (m d : Nat) : Bool :=
  decide (-262144 ≤ y ∧ y ≤ 262143) &&
  decide (1 ≤ m ∧ m ≤ 12) &&
  decide (1 ≤ d ∧ d ≤ days_in_month y m)

/-- Validity domain of chrono `NaiveTime::from_hms_opt`. -/
def from_hms_valid (h mi s : Nat) : Bool :=
  decide (h < 24) && decide (mi < 60) && decide (s < 60)

/-- A resolved naive UTC timestamp; a chrono `DateTime<Utc>` built from a
`NaiveDate` and a `NaiveTime` is determined by these six fields. -/
structure Timestamp where
  year : Int
  month : Nat
  day : Nat
  hour : Nat
  minute : Nat
  second : Nat
deriving DecidableEq

/-- `from_ymd_opt(..).unwrap()` composed with `from_hms_opt(..).unwrap()` and
`and_time`: `none` models the panic on invalid calendar values. -/
def mk_timestamp (year_i : Int) (month_u day_u hour_u minute_u second_u : Nat) :
    Option Timestamp :=
  if from_ymd_valid year_i month_u day_u && from_hms_valid hour_u minute_u second_u then
    some ⟨year_i, month_u, day_u, hour_u, minute_u, second_u⟩
  else none

/-- The i-th `:`-separated component of the normalized time string, with the
`next().unwrap_or("0")` default of the source. -/
def time_part (tn : List Char) (i : Nat) : List Char :=
  ((splitOnPred (fun c => c == ':') tn).get? i).getD (lchars "0")

/-- parser.rs lines 275-285 (identical to lines 232-244): assemble the final
timestamp from the normalized day/month/year strings and the normalized time
string.  Each `parse().unwrap_or(..)` falls back individually (day 1,
month 1, year 1970, time components 0); `none` models the panic of the
`from_ymd_opt` / `from_hms_opt` unwraps when the resolved values are not a
valid calendar date and time. -/
def assemble_timestamp (day month year time_normalized : List Char) : Option Timestamp :=
  mk_timestamp ((parse_i32 year).getD 1970) ((parse_u32 month).getD 1) ((parse_u32 day).getD 1)
    ((parse_u32 (time_part time_normalized 0)).getD 0)
    ((parse_u32 (time_part time_normalized 1)).getD 0)
    ((parse_u32 (time_part time_normalized 2)).getD 0)

/-! ## Regular expressions

The patterns of parser.rs are embedded as an explicit AST.  `pmatch` is a
Brzozowski-derivative matcher deciding `Regex::is_match` for these
`^`-anchored patterns (a match may end anywhere, hence the prefix
semantics), and `exec` is a backtracking engine with the leftmost-first
preference order of the regex crate, deciding `Regex::captures`. -/

inductive Regex where
  | emp : Regex
  | eps : Regex
  | cls : (Char → Bool) → Regex
  | cat : Regex → Regex → Regex
  | alt : Regex → Regex → Regex
  | star : Regex → Bool → Regex
  | group : Nat → Regex → Regex

/-- Whether the empty string matches. -/
def nullable : Regex → Bool
  | .emp => false
  | .eps => true
  | .cls _ => false
  | .cat r1 r2 => nullable r1 && nullable r2
  | .alt r1 r2 => nullable r1 || nullable r2
  | .star _ _ => true
  | .group _ r => nullable r

/-- Smart alternation (prunes the empty language). -/
def altS : Regex → Regex → Regex
  | .emp, r => r
  | r, .emp => r
  | r1, r2 => .alt r1 r2

/-- Smart concatenation (prunes the empty language and the empty string). -/
def catS : Regex → Regex → Regex
  | .emp, _ => .emp
  | .eps, r => r
  | r1, r2 => .cat r1 r2

/-- Brzozowski derivative. -/
def deriv : Regex → Char → Regex
  | .emp, _ => .emp
  | .eps, _ => .emp
  | .cls p, c => if p c then .eps else .emp
  | .cat r1 r2, c =>
    if nullable r1 then altS (catS (deriv r1 c) r2) (deriv r2 c) else catS (deriv r1 c) r2
  | .alt r1 r2, c => altS (deriv r1 c) (deriv r2 c)
  | .star r1 lz, c => catS (deriv r1 c) (.star r1 lz)
  | .group _ r, c => deriv r c

/-- Whole-string match. -/
def fmatch : Regex → List Char → Bool
  | r, [] => nullable r
  | r, c :: s => fmatch (deriv r c) s

/-- Prefix match: some prefix of the input is in the language.  This is
`Regex::is_match` for the `^`-anchored patterns of parser.rs. -/
def pmatch : Regex → List Char → Bool
  | r, [] => nullable r
  | r, c :: s => nullable r || pmatch (deriv r c) s

/-- Greedy `r?`. -/
def optG (r : Regex) : Regex := .alt r .eps

/-- Greedy `r+`. -/
def plusG (r : Regex) : Regex := .cat r (.star r false)

/-- Lazy `r+?`. -/
def plusL (r : Regex) : Regex := .cat r (.star r true)

/-- Greedy `r{1,4}`. -/
def rep14 (r : Regex) : Regex := .cat r (optG (.cat r (optG (.cat r (optG r)))))

/-- Greedy `r{1,2}`. -/
def rep12 (r : Regex) : Regex := .cat r (optG r)

/-- Regex `\d` (ASCII fragment; every digit relevant here is ASCII). -/
def rxDigit : Regex := .cls Char.isDigit

/-- Regex `\D`. -/
def rxNonDigit : Regex := .cls (fun c => !c.isDigit)

/-- Regex `.` under the `(?s)` flag. -/
def rxAny : Regex := .cls (fun _ => true)

/-- Regex `.` without the `(?s)` flag. -/
def rxAnyNoNl : Regex := .cls (fun c => c != '\n')

/-- Regex `\s`. -/
def rxSpaceCls : Regex := .cls rs_whitespace

/-- The date-separator class of dashes, slashes and dots (the same character
set used by order_date_components to split the captured date). -/
def rxDateSep : Regex := .cls isDateSep

/-- The time-separator class `[.:]` (the same set used by the time splits). -/
def rxTimeSep : Regex := .cls isTimeSep

/-- The date token of SHARED_REGEX (capture group 1). -/
def rxDateToken : Regex :=
  .cat (rep14 rxDigit) (.cat rxDateSep (.cat (optG rxSpaceCls)
    (.cat (rep14 rxDigit) (.cat rxDateSep (.cat (optG rxSpaceCls) (rep14 rxDigit))))))

/-- The time token of SHARED_REGEX (capture group 2). -/
def rxTimeToken : Regex :=
  .cat (rep12 rxDigit) (.cat rxTimeSep (.cat (rep12 rxDigit)
    (optG (.cat rxTimeSep (rep12 rxDigit)))))

/-- The am/pm token of SHARED_REGEX (capture group 3). -/
def rxAmpmToken : Regex :=
  .cat (.cls (fun c => c == 'A' || c == 'a' || c == 'P' || c == 'p'))
    (.cat (.alt (.cat (.cls (fun c => c == '.')) (optG rxSpaceCls)) (optG rxSpaceCls))
      (.cat (.cls (fun c => c == 'M' || c == 'm')) (optG (.cls (fun c => c == '.')))))

/-- The leading directional-mark repetition of SHARED_REGEX. -/
def rxMarks : Regex := .star (.cls (fun c => c == '‎' || c == '‏')) false

/-- parser.rs SHARED_REGEX (the `^` anchor is the start-of-input position of
`pmatch`/`captures_of`): optional directional marks, optional opening
bracket, the date token, an optional comma or dot and a whitespace, a lazy
non-digit gap, the time token, an optional am/pm token preceded by a space
or narrow no-break space, an optional closing bracket, an optional
space-dash or colon delimiter, and a final whitespace. -/
def SHARED_REGEX : Regex :=
  .cat rxMarks
  (.cat (optG (.cls (fun c => c == '[')))
  (.cat (.group 1 rxDateToken)
  (.cat (optG (.cls (fun c => c == ',' || c == '.')))
  (.cat rxSpaceCls
  (.cat (.star rxNonDigit true)
  (.cat (.group 2 rxTimeToken)
  (.cat (optG (.cat (.cls (fun c => rs_whitespace c || c == ' ')) (.group 3 rxAmpmToken)))
  (.cat (optG (.cls (fun c => c == ']')))
  (.cat (optG (.alt (.cat rxSpaceCls (.cls (fun c => c == '-'))) (.cls (fun c => c == ':'))))
  rxSpaceCls)))))))))

/-- parser.rs AUTHOR_AND_MESSAGE_REGEX: lazy author capture (group 4 of the
composed user pattern), a colon and whitespace, then the body (group 5);
the `(?s)` flag makes `.` match embedded newlines. -/
def AUTHOR_AND_MESSAGE_REGEX : Regex :=
  .cat (.group 4 (plusL rxAny))
    (.cat (.cls (fun c => c == ':')) (.cat rxSpaceCls (.group 5 (.star rxAny false))))

/-- parser.rs MESSAGE_REGEX: the whole remainder as the body (group 4 of the
composed system pattern). -/
def MESSAGE_REGEX : Regex := .group 4 (.star rxAny false)

/-- parser.rs REGEX_USER = SHARED_REGEX followed by AUTHOR_AND_MESSAGE_REGEX. -/
def REGEX_USER : Regex := .cat SHARED_REGEX AUTHOR_AND_MESSAGE_REGEX

/-- parser.rs REGEX_SYSTEM = SHARED_REGEX followed by MESSAGE_REGEX. -/
def REGEX_SYSTEM : Regex := .cat SHARED_REGEX MESSAGE_REGEX

/-- Regex `\w` (ASCII fragment). -/
def rxWordChar : Regex := .cls (fun c => c.isAlphanum || c == '_')

/-- parser.rs REGEX_ATTACHMENT: optional directional marks, then either an
angle-bracket alternative capturing the filename after a colon (group 1) or
a bare filename (group 2) followed by a parenthesised or bracketed
annotation. -/
def REGEX_ATTACHMENT : Regex :=
  .cat rxMarks
    (.alt
      (.cat (.cls (fun c => c == '<'))
        (.cat (plusG rxAnyNoNl)
          (.cat (.cls (fun c => c == ':'))
            (.cat (.group 1 (plusG rxAnyNoNl)) (.cls (fun c => c == '>'))))))
      (.cat (.group 2 (.cat (plusG (.cls (fun c => c.isAlphanum || c == '_' || c == '-')))
          (.cat (.cls (fun c => c == '.')) (plusG rxWordChar))))
        (.cat rxSpaceCls
          (.cat (.cls (fun c => c == '(' || c == '<'))
            (.cat (plusG rxAnyNoNl) (.cls (fun c => c == ')' || c == '>')))))))

/-! ## Capturing engine -/

/-- Capture environment: group index to captured slice, latest binding
first. -/
def Caps : Type := List (Nat × List Char)

/-- Record a capture. -/
def setCap (n : Nat) (v : List Char) (caps : Caps) : Caps := (n, v) :: caps

/-- `Captures::get`. -/
def findCap (caps : Caps) (n : Nat) : Option (List Char) :=
  (caps.find? (fun q => q.1 == n)).map (fun q => q.2)

/-- Backtracking matching engine with captures, following the
leftmost-first preference order of the regex crate: alternation prefers the
left branch, greedy stars prefer more repetitions, lazy stars prefer fewer,
and a star iteration must consume input.  `fuel` bounds the recursion depth
and is chosen amply for every input evaluated here. -/
def exec : Nat → Regex → List Char → Caps → (List Char → Caps → Option Caps) → Option Caps
  | 0, _, _, _, _ => none
  | Nat.succ fuel, r, s, caps, k =>
    match r with
    | .emp => none
    | .eps => k s caps
    | .cls p =>
      match s with
      | [] => none
      | c :: rest => if p c then k rest caps else none
    | .cat r1 r2 => exec fuel r1 s caps (fun s1 c1 => exec fuel r2 s1 c1 k)
    | .alt r1 r2 =>
      match exec fuel r1 s caps k with
      | some res => some res
      | none => exec fuel r2 s caps k
    | .star r1 lz =>
      if lz then
        match k s caps with
        | some res => some res
        | none => exec fuel r1 s caps (fun s1 c1 =>
            if s1.length < s.length then exec fuel (.star r1 lz) s1 c1 k else none)
      else
        match exec fuel r1 s caps (fun s1 c1 =>
            if s1.length < s.length then exec fuel (.star r1 lz) s1 c1 k else none) with
        | some res => some res
        | none => k s caps
    | .group n r1 =>
      exec fuel r1 s caps (fun s1 c1 =>
        k s1 (setCap n (s.take (s.length - s1.length)) c1))

/-- `Regex::captures` at the start of the input (the patterns are anchored
with `^`; a match may end anywhere): the capture environment of the
leftmost-first match, or `none` when the pattern does not match. -/
def captures_of (r : Regex) (s : List Char) : Option Caps :=
  exec (4000 * (s.length + 1)) r s [] (fun _ caps => some caps)

/-! ## Message segmenter and field extraction (parser.rs) -/

/-- models.rs RawMessage. -/
structure RawMessage where
  system : Bool
  msg : List Char
deriving DecidableEq

/-- The per-line step of parser.rs `make_array_of_messages_with_debug`
(lines 55-89): the user pattern is tested first, then the system pattern;
any other line is merged into the last message, or dropped when no message
has started yet. -/
def segment_step (acc : List RawMessage) (line : List Char) : List RawMessage :=
  if pmatch REGEX_USER line then acc ++ [⟨false, line⟩]
  else if pmatch REGEX_SYSTEM line then acc ++ [⟨true, line⟩]
  else
    match acc.getLast? with
    | some m => acc.dropLast ++ [⟨m.system, m.msg ++ '\n' :: line⟩]
    | none => acc

/-- parser.rs `make_array_of_messages_with_debug`; the debug flag only
prints and never influences the result. -/
def make_array_of_messages_with_debug (lines : List (List Char)) (debug : Bool) :
    List RawMessage :=
  lines.foldl segment_step []

/-- parser.rs `make_array_of_messages`. -/
def make_array_of_messages (lines : List (List Char)) : List RawMessage :=
  make_array_of_messages_with_debug lines false

/-- Directional-mark stripping
`replace('‎', "").replace('‏', "")`. -/
def strip_marks (s : List Char) : List Char :=
  s.filter (fun c => !(c == '‎' || c == '‏'))

/-- The intermediate tuple (date, time, am/pm, author, body) produced per
message by parse_messages. -/
structure Extracted where
  date : List Char
  time : List Char
  ampm : Option (List Char)
  author : Option (List Char)
  message : List Char
deriving DecidableEq

/-- The per-message extraction closure of parse_messages (lines 145-161,
identically lines 168-183): select the pattern by the system flag, take
captures 1-5, strip directional marks from the body and trim it.  `none`
models the `captures(..).unwrap()` panic when the pattern does not match. -/
def extract_tuple (obj : RawMessage) : Option Extracted :=
  match captures_of (if obj.system then REGEX_SYSTEM else REGEX_USER) obj.msg with
  | none => none
  | some caps =>
    some ⟨(findCap caps 1).getD [], (findCap caps 2).getD [], findCap caps 3,
      if obj.system then none else findCap caps 4,
      trim (strip_marks ((if obj.system then findCap caps 4 else findCap caps 5).getD []))⟩

/-! ## The full parse_messages pipeline (parser.rs) -/

/-- models.rs Attachment. -/
structure Attachment where
  file_name : List Char
deriving DecidableEq

/-- models.rs Message, with the timestamp in the six-field model. -/
structure Message where
  date : Timestamp
  author : Option (List Char)
  message : List Char
  attachment : Option Attachment
deriving DecidableEq

/-- models.rs ParseStringOptions. -/
structure ParseStringOptions where
  days_first : Option Bool
  parse_attachments : Bool
  debug : Bool
deriving DecidableEq

/-- parser.rs `parse_message_attachment`: the first matching alternative's
captured filename, trimmed; an empty name when neither capture is present. -/
def parse_message_attachment (message : List Char) : Option Attachment :=
  (captures_of REGEX_ATTACHMENT message).map (fun caps =>
    ⟨((((findCap caps 1).orElse (fun _ => findCap caps 2)).map trim)).getD []⟩)

/-- Collect the per-message results of a batch stage, where `none` marks a
panic: a panic anywhere aborts the whole parse (both the sequential
iteration and rayon's collect propagate it). -/
def seqOption {α : Type} : List (Option α) → Option (List α)
  | [] => some []
  | none :: _ => none
  | some a :: rest => (seqOption rest).map (fun l => a :: l)

/-- parser.rs lines 192-198: derive the numeric date triple of one message
using the longest-token-last ordering rule; `none` models the
`parse().unwrap()` panics. -/
def tuple_ndate (t : Extracted) : Option NDate :=
  match order_date_components t.date with
  | none => none
  | some (d, m, y) =>
    match parse_i32 d, parse_i32 m, parse_i32 y with
    | some va, some vb, some vc => some ⟨va, vb, vc⟩
    | _, _, _ => none

/-- The per-message finalization closure of parse_messages (lines 209-255,
identically lines 259-296): order the date components, apply the days-first
resolution, normalize date and time, assemble the timestamp, and optionally
extract an attachment.  `none` models the panics of the source. -/
def finalize_tuple (days_first : Option Bool) (parse_attachments : Bool)
    (t : Extracted) : Option Message :=
  match order_date_components t.date with
  | none => none
  | some (d0, m0, y0) =>
    match apply_days_first days_first d0 m0 y0 with
    | (day0, month0, year0) =>
      match normalize_date year0 month0 day0 with
      | (year, month, day) =>
        match (match t.ampm with
          | some av => (convert_time_12_to_24 t.time (normalize_ampm av)).bind normalize_time
          | none => normalize_time t.time) with
        | none => none
        | some time_normalized =>
          match assemble_timestamp day month year time_normalized with
          | none => none
          | some ts =>
            some ⟨ts, t.author, t.message,
              if parse_attachments then parse_message_attachment t.message else none⟩

/-- parser.rs `parse_messages`.  The debug branch is the sequential
enumerated path (its prints are pure side channel and dropped); the
non-debug branch is the rayon parallel path, modelled as an
order-preserving map (rayon's indexed collect returns results in input
order).  `none` models a panic anywhere in the batch. -/
def parse_messages (messages : List RawMessage) (options : ParseStringOptions) :
    Option (List Message) :=
  match (if options.debug then seqOption ((messages.enum).map (fun p => extract_tuple p.2))
         else seqOption (messages.map extract_tuple)) with
  | none => none
  | some parsed =>
    match (match options.days_first with
      | some b => some (some b)
      | none => (seqOption (parsed.map tuple_ndate)).map
          (fun nds => days_before_months nds)) with
    | none => none
    | some days_first =>
      if options.debug then
        seqOption ((parsed.enum).map
          (fun p => finalize_tuple days_first options.parse_attachments p.2))
      else
        seqOption (parsed.map (finalize_tuple days_first options.parse_attachments))

/-! ## Helper lemmas on the heuristics -/

theorem windows2_any_iff (p : NDate × NDate → Bool) :
    ∀ l : List NDate, ((windows2 l).any p = true) ↔
      ∃ i x y, l.get? i = some x ∧ l.get? (i + 1) = some y ∧ p (x, y) = true := by
  intro l
  induction l with
  | nil => simp [windows2]
  | cons a t ih =>
    cases t with
    | nil =>
      simp only [windows2, List.any_nil, Bool.false_eq_true, false_iff]
      rintro ⟨i, x, y, h1, h2, h3⟩
      cases i <;> simp_all
    | cons b t2 =>
      simp only [windows2, List.any_cons]
      constructor
      · intro h
        rcases Bool.or_eq_true_iff.mp h with h | h
        · exact ⟨0, a, b, rfl, rfl, h⟩
        · obtain ⟨i, x, y, h1, h2, h3⟩ := (ih).mp h
          exact ⟨i + 1, x, y, h1, h2, h3⟩
      · rintro ⟨i, x, y, h1, h2, h3⟩
        cases i with
        | zero =>
          simp only [List.get?] at h1 h2
          obtain rfl := Option.some.inj h1
          obtain rfl := Option.some.inj h2
          exact Bool.or_eq_true_iff.mpr (Or.inl h3)
        | succ j =>
          exact Bool.or_eq_true_iff.mpr (Or.inr ((ih).mpr ⟨j, x, y, h1, h2, h3⟩))

theorem any_fst_iff (g : List NDate) :
    ((windows2 g).any (fun w => is_negative (w.2.a - w.1.a)) = true) ↔ fstDecreases g := by
  rw [windows2_any_iff]
  unfold fstDecreases
  constructor <;> rintro ⟨i, x, y, h1, h2, h3⟩ <;>
    exact ⟨i, x, y, h1, h2, by simpa [is_negative, sub_neg] using h3⟩

theorem any_snd_iff (g : List NDate) :
    ((windows2 g).any (fun w => is_negative (w.2.b - w.1.b)) = true) ↔ sndDecreases g := by
  rw [windows2_any_iff]
  unfold sndDecreases
  constructor <;> rintro ⟨i, x, y, h1, h2, h3⟩ <;>
    exact ⟨i, x, y, h1, h2, by simpa [is_negative, sub_neg] using h3⟩

theorem check_decreasing_group_eq_some_true (g : List NDate) :
    check_decreasing_group g = some true ↔ fstDecreases g := by
  rw [← any_fst_iff]
  unfold check_decreasing_group
  cases h1 : (windows2 g).any (fun w => is_negative (w.2.a - w.1.a)) with
  | true => simp [h1]
  | false =>
    cases h2 : (windows2 g).any (fun w => is_negative (w.2.b - w.1.b)) with
    | true => simp [h1, h2]
    | false => simp [h1, h2]

theorem check_decreasing_group_eq_some_false (g : List NDate) :
    check_decreasing_group g = some false ↔ (¬ fstDecreases g ∧ sndDecreases g) := by
  rw [← any_fst_iff, ← any_snd_iff]
  unfold check_decreasing_group
  cases h1 : (windows2 g).any (fun w => is_negative (w.2.a - w.1.a)) with
  | true => simp [h1]
  | false =>
    cases h2 : (windows2 g).any (fun w => is_negative (w.2.b - w.1.b)) with
    | true => simp [h1, h2]
    | false => simp [h1, h2]

theorem check_decreasing_group_eq_none (g : List NDate) :
    check_decreasing_group g = none ↔ (¬ fstDecreases g ∧ ¬ sndDecreases g) := by
  rw [← any_fst_iff, ← any_snd_iff]
  unfold check_decreasing_group
  cases h1 : (windows2 g).any (fun w => is_negative (w.2.a - w.1.a)) with
  | true => simp [h1]
  | false =>
    cases h2 : (windows2 g).any (fun w => is_negative (w.2.b - w.1.b)) with
    | true => simp [h1, h2]
    | false => simp [h1, h2]

theorem any_group_true_iff (groups : List (List NDate)) :
    ((groups.map check_decreasing_group).any (fun r => r == some true) = true) ↔
      ∃ g ∈ groups, fstDecreases g := by
  simp only [List.any_eq_true, List.mem_map, beq_iff_eq]
  constructor
  · rintro ⟨r, ⟨g, hg, rfl⟩, h⟩
    exact ⟨g, hg, (check_decreasing_group_eq_some_true g).mp h⟩
  · rintro ⟨g, hg, h⟩
    exact ⟨_, ⟨g, hg, rfl⟩, (check_decreasing_group_eq_some_true g).mpr h⟩

theorem any_group_false_iff (groups : List (List NDate)) :
    ((groups.map check_decreasing_group).any (fun r => r == some false) = true) ↔
      ∃ g ∈ groups, ¬ fstDecreases g ∧ sndDecreases g := by
  simp only [List.any_eq_true, List.mem_map, beq_iff_eq]
  constructor
  · rintro ⟨r, ⟨g, hg, rfl⟩, h⟩
    exact ⟨g, hg, (check_decreasing_group_eq_some_false g).mp h⟩
  · rintro ⟨g, hg, h⟩
    exact ⟨_, ⟨g, hg, rfl⟩, (check_decreasing_group_eq_some_false g).mpr h⟩

theorem aggregate_eq_some_true (groups : List (List NDate)) :
    aggregate_results groups = some true ↔ ∃ g ∈ groups, fstDecreases g := by
  unfold aggregate_results
  split
  · next h1 =>
    constructor
    · intro _; exact (any_group_true_iff groups).mp h1
    · intro _; rfl
  · next h1 =>
    have hno : ¬ ∃ g ∈ groups, fstDecreases g :=
      fun hex => h1 ((any_group_true_iff groups).mpr hex)
    split
    · constructor
      · intro h; simp at h
      · intro hex; exact absurd hex hno
    · constructor
      · intro h; simp at h
      · intro hex; exact absurd hex hno

theorem aggregate_eq_some_false (groups : List (List NDate)) :
    aggregate_results groups = some false ↔
      ((∀ g ∈ groups, ¬ fstDecreases g) ∧ ∃ g ∈ groups, sndDecreases g) := by
  unfold aggregate_results
  split
  · next h1 =>
    constructor
    · intro h; simp at h
    · rintro ⟨hall, -⟩
      obtain ⟨g, hg, hf⟩ := (any_group_true_iff groups).mp h1
      exact absurd hf (hall g hg)
  · next h1 =>
    have hno : ∀ g ∈ groups, ¬ fstDecreases g := fun g hg hf =>
      h1 ((any_group_true_iff groups).mpr ⟨g, hg, hf⟩)
    split
    · next h2 =>
      constructor
      · intro _
        obtain ⟨g, hg, -, hs⟩ := (any_group_false_iff groups).mp h2
        exact ⟨hno, g, hg, hs⟩
      · intro _; rfl
    · next h2 =>
      constructor
      · intro h; simp at h
      · rintro ⟨-, g, hg, hs⟩
        exact absurd ((any_group_false_iff groups).mpr ⟨g, hg, hno g hg, hs⟩) h2

theorem aggregate_eq_none (groups : List (List NDate)) :
    aggregate_results groups = none ↔
      ∀ g ∈ groups, ¬ fstDecreases g ∧ ¬ sndDecreases g := by
  unfold aggregate_results
  split
  · next h1 =>
    constructor
    · intro h; simp at h
    · intro hall
      obtain ⟨g, hg, hf⟩ := (any_group_true_iff groups).mp h1
      exact absurd hf (hall g hg).1
  · next h1 =>
    have hno : ∀ g ∈ groups, ¬ fstDecreases g := fun g hg hf =>
      h1 ((any_group_true_iff groups).mpr ⟨g, hg, hf⟩)
    split
    · next h2 =>
      constructor
      · intro h; simp at h
      · intro hall
        obtain ⟨g, hg, -, hs⟩ := (any_group_false_iff groups).mp h2
        exact absurd hs (hall g hg).2
    · next h2 =>
      constructor
      · intro _ g hg
        refine ⟨hno g hg, fun hs => ?_⟩
        exact h2 ((any_group_false_iff groups).mpr ⟨g, hg, hno g hg, hs⟩)
      · intro _; rfl

theorem perm_any {α : Type} {l1 l2 : List α} (p : α → Bool) (h : l1.Perm l2) :
    l1.any p = l2.any p := by
  induction h with
  | nil => rfl
  | cons a _ ih => simp [List.any_cons, ih]
  | swap a b l => simp [List.any_cons, Bool.or_left_comm]
  | trans _ _ ih1 ih2 => rw [ih1, ih2]

/-! ## Claims C1, C2, C3, C10 -/

/-- C1: the day/month order is decided by the first heuristic (in the order
range check, monotonicity check, change-frequency analysis) to return a
resolved answer — a lower-priority heuristic's answer is never used once a
higher-priority one resolves — and when all three are unresolved and the
daysFirst option is unset, the pipeline interprets the first date token as
the day. -/
theorem days_before_months_priority_order (nds : List NDate) :
    (∀ b, check_above_12 nds = some b → days_before_months nds = some b) ∧
    (check_above_12 nds = none →
      ∀ b, check_decreasing nds = some b → days_before_months nds = some b) ∧
    (check_above_12 nds = none → check_decreasing nds = none →
      days_before_months nds = change_frequency_analysis nds) ∧
    (∀ d m y : List Char, apply_days_first none d m y = (d, m, y) ∧
      apply_days_first none d m y = apply_days_first (some true) d m y) := by
  refine ⟨?_, ?_, ?_, ?_⟩
  · intro b h
    simp [days_before_months, h, Option.orElse]
  · intro h1 b h2
    simp [days_before_months, h1, h2, Option.orElse]
  · intro h1 h2
    simp [days_before_months, h1, h2, Option.orElse]
  · intro d m y
    exact ⟨rfl, rfl⟩

/-- Witness for C1: a batch where the range check is unresolved and the
monotonicity check resolves days-first; the combinator returns that answer. -/
theorem days_before_months_priority_order_witness :
    check_above_12 [⟨8, 3, 2017⟩, ⟨7, 5, 2017⟩, ⟨6, 9, 2018⟩] = none ∧
    check_decreasing [⟨8, 3, 2017⟩, ⟨7, 5, 2017⟩, ⟨6, 9, 2018⟩] = some true ∧
    days_before_months [⟨8, 3, 2017⟩, ⟨7, 5, 2017⟩, ⟨6, 9, 2018⟩] = some true :=
  ⟨by decide, by decide,
    (days_before_months_priority_order [⟨8, 3, 2017⟩, ⟨7, 5, 2017⟩, ⟨6, 9, 2018⟩]).2.1
      (by decide) true (by decide)⟩

/-- C2: the monotonicity heuristic partitions the triples by year (each group
is the order-preserving filter of the input at one year value); the overall
result is days-first iff some group has a decrease in first components;
month-first iff no group has a first-component decrease and some group has a
second-component decrease (so a days-first signal beats a month-first signal
from a different group); unresolved iff no group has either decrease; and a
group with fewer than two members contributes no signal. -/
theorem check_decreasing_monotonicity_spec (nds : List NDate) :
    (∀ g ∈ group_array_by_value_at_index nds 2, ∃ y, g = nds.filter (fun d => d.c == y)) ∧
    (check_decreasing nds = some true ↔
      ∃ g ∈ group_array_by_value_at_index nds 2, fstDecreases g) ∧
    (check_decreasing nds = some false ↔
      ((∀ g ∈ group_array_by_value_at_index nds 2, ¬ fstDecreases g) ∧
        ∃ g ∈ group_array_by_value_at_index nds 2, sndDecreases g)) ∧
    (check_decreasing nds = none ↔
      ∀ g ∈ group_array_by_value_at_index nds 2, ¬ fstDecreases g ∧ ¬ sndDecreases g) ∧
    (∀ g : List NDate, g.length < 2 → check_decreasing_group g = none) := by
  refine ⟨?_, ?_, ?_, ?_, ?_⟩
  · intro g hg
    simp only [group_array_by_value_at_index, List.mem_map] at hg
    obtain ⟨k, _, rfl⟩ := hg
    exact ⟨k, rfl⟩
  · exact aggregate_eq_some_true _
  · exact aggregate_eq_some_false _
  · exact aggregate_eq_none _
  · intro g hg
    match g, hg with
    | [], _ => rfl
    | [x], _ => rfl

/-- Witness for C2: on the batch `[[8,3,2017],[7,5,2017],[6,9,2018]]` the
year-2017 group has a first-component decrease (8 then 7), so the heuristic
resolves days-first. -/
theorem check_decreasing_monotonicity_spec_witness :
    check_decreasing [⟨8, 3, 2017⟩, ⟨7, 5, 2017⟩, ⟨6, 9, 2018⟩] = some true :=
  (check_decreasing_monotonicity_spec [⟨8, 3, 2017⟩, ⟨7, 5, 2017⟩, ⟨6, 9, 2018⟩]).2.1.mpr
    ⟨[⟨8, 3, 2017⟩, ⟨7, 5, 2017⟩], by decide,
      0, ⟨8, 3, 2017⟩, ⟨7, 5, 2017⟩, by decide, by decide, by decide⟩

/-- C3 counterexample: on the third scenario batch
`[[4,6,2017],[11,10,2017],[12,12,2017]]` the combined disambiguator is NOT
unresolved: the change-frequency analysis sums |Δa| = 7+1 = 8 against
|Δb| = 4+2 = 6 and resolves days-first = true. -/
theorem days_before_months_third_batch_not_unresolved :
    days_before_months [⟨4, 6, 2017⟩, ⟨11, 10, 2017⟩, ⟨12, 12, 2017⟩] = some true ∧
    days_before_months [⟨4, 6, 2017⟩, ⟨11, 10, 2017⟩, ⟨12, 12, 2017⟩] ≠ none := by
  exact ⟨by decide, by decide⟩

/-- C3 (amended): the combined disambiguator returns days-first = true on
`[[3,6,2017],[13,11,2017],[26,12,2017]]`, days-first = false on
`[[4,2,2017],[6,11,2017],[12,13,2017]]`, and days-first = true (resolved by
the change-frequency analysis, not unresolved) on
`[[4,6,2017],[11,10,2017],[12,12,2017]]`. -/
theorem days_before_months_scenario_batches :
    days_before_months [⟨3, 6, 2017⟩, ⟨13, 11, 2017⟩, ⟨26, 12, 2017⟩] = some true ∧
    days_before_months [⟨4, 2, 2017⟩, ⟨6, 11, 2017⟩, ⟨12, 13, 2017⟩] = some false ∧
    days_before_months [⟨4, 6, 2017⟩, ⟨11, 10, 2017⟩, ⟨12, 12, 2017⟩] = some true := by
  exact ⟨by decide, by decide, by decide⟩

/-- C10: the monotonicity heuristic is deterministic in the order the
hash-map grouping yields the year groups: aggregating any permutation of the
group list gives the same result as `check_decreasing`, and each group is an
order-preserving sublist of the input batch. -/
theorem check_decreasing_group_order_invariant (nds : List NDate) (gs : List (List NDate))
    (h : gs.Perm (group_array_by_value_at_index nds 2)) :
    aggregate_results gs = check_decreasing nds ∧
    ∀ g ∈ group_array_by_value_at_index nds 2, g.Sublist nds := by
  constructor
  · unfold check_decreasing aggregate_results
    rw [perm_any _ (h.map check_decreasing_group), perm_any _ (h.map check_decreasing_group)]
  · intro g hg
    simp only [group_array_by_value_at_index, List.mem_map] at hg
    obtain ⟨k, _, rfl⟩ := hg
    exact List.filter_sublist _

/-- Witness for C10: swapping the two year groups of
`[[8,3,2017],[7,5,2017],[6,9,2018]]` leaves the aggregate unchanged. -/
theorem check_decreasing_group_order_invariant_witness :
    aggregate_results [[⟨6, 9, 2018⟩], [⟨8, 3, 2017⟩, ⟨7, 5, 2017⟩]] =
      check_decreasing [⟨8, 3, 2017⟩, ⟨7, 5, 2017⟩, ⟨6, 9, 2018⟩] :=
  (check_decreasing_group_order_invariant [⟨8, 3, 2017⟩, ⟨7, 5, 2017⟩, ⟨6, 9, 2018⟩]
    [[⟨6, 9, 2018⟩], [⟨8, 3, 2017⟩, ⟨7, 5, 2017⟩]] (by decide)).1

/-! ## Claims C4 and C8 -/

theorem mk_timestamp_some {y : Int} {m d h mi s : Nat} {ts : Timestamp}
    (hts : mk_timestamp y m d h mi s = some ts) : ts = ⟨y, m, d, h, mi, s⟩ := by
  unfold mk_timestamp at hts
  split at hts
  · exact (Option.some.inj hts).symm
  · simp at hts

/-- C4 counterexample: with day "x" (unparseable), month "13", year "2017"
and time "03:04:05", the day falls back to 1 but `from_ymd_opt(2017, 13, 1)`
is None and its unwrap panics (modelled by `none`): assembly neither
produces the fallback timestamp nor avoids the crash, refuting both parts of
the claim on an input with a malformed numeric field. -/
theorem assemble_timestamp_partial_fallback_panics :
    assemble_timestamp (lchars "x") (lchars "13") (lchars "2017") (lchars "03:04:05") = none ∧
    assemble_timestamp (lchars "x") (lchars "13") (lchars "2017") (lchars "03:04:05") ≠
      some ⟨1970, 1, 1, 0, 0, 0⟩ := by
  exact ⟨by decide, by decide⟩

/-- C4 (amended): each field that fails to parse falls back individually —
day to 1, month to 1, year to 1970 and hour/minute/second to 0 — so when
every field fails to parse the assembled timestamp is 1970-01-01 00:00:00
and no panic occurs; fields that do parse keep their values, and assembly
can still panic (the `from_ymd_opt`/`from_hms_opt` unwraps) when the
resolved values are not a valid calendar date and time. -/
theorem assemble_timestamp_fallback_fields (day month year tn : List Char) :
    (∀ ts, assemble_timestamp day month year tn = some ts →
      (parse_u32 day = none → ts.day = 1) ∧
      (parse_u32 month = none → ts.month = 1) ∧
      (parse_i32 year = none → ts.year = 1970) ∧
      (parse_u32 (time_part tn 0) = none → ts.hour = 0) ∧
      (parse_u32 (time_part tn 1) = none → ts.minute = 0) ∧
      (parse_u32 (time_part tn 2) = none → ts.second = 0)) ∧
    (parse_u32 day = none → parse_u32 month = none → parse_i32 year = none →
      parse_u32 (time_part tn 0) = none → parse_u32 (time_part tn 1) = none →
      parse_u32 (time_part tn 2) = none →
      assemble_timestamp day month year tn = some ⟨1970, 1, 1, 0, 0, 0⟩) := by
  constructor
  · intro ts hts
    have hfields := mk_timestamp_some hts
    subst hfields
    refine ⟨?_, ?_, ?_, ?_, ?_, ?_⟩ <;> intro h <;> simp [h]
  · intro hd hm hy h0 h1 h2
    unfold assemble_timestamp
    rw [hd, hm, hy, h0, h1, h2]
    decide

/-- Witness for C4 (amended): all six fields unparseable gives the fallback
timestamp 1970-01-01 00:00:00 without a panic. -/
theorem assemble_timestamp_fallback_fields_witness :
    assemble_timestamp (lchars "x") (lchars "y") (lchars "z") (lchars "a:b:c") =
      some ⟨1970, 1, 1, 0, 0, 0⟩ :=
  (assemble_timestamp_fallback_fields (lchars "x") (lchars "y") (lchars "z")
      (lchars "a:b:c")).2
    (by decide) (by decide) (by decide) (by decide) (by decide) (by decide)

/-- C8: the 12-to-24-hour conversion splits the time on `:` or `.`, first
maps hour 12 to 0, then adds 12 to the hour when the normalized token is PM
and leaves it unchanged for AM, pads the hour to two digits and keeps
minutes (and optional seconds); in particular ("12:00","PM") gives "12:00",
("12:00","AM") gives "00:00" and ("05:06","PM") gives "17:06". -/
theorem convert_time_12_to_24_spec :
    (∀ (time ampm p0 p1 : List Char) (rest : List (List Char)) (n : Int),
      splitOnPred isTimeSep time = p0 :: p1 :: rest →
      parse_i32 p0 = some n →
      convert_time_12_to_24 time ampm =
        some (padLeft '0' 2 (intToChars ((if n = 12 then 0 else n) +
            (if ampm = lchars "PM" then 12 else 0))) ++
          ':' :: p1 ++ (match rest with
            | s :: _ => ':' :: s
            | [] => []))) ∧
    convert_time_12_to_24 (lchars "12:00") (lchars "PM") = some (lchars "12:00") ∧
    convert_time_12_to_24 (lchars "12:00") (lchars "AM") = some (lchars "00:00") ∧
    convert_time_12_to_24 (lchars "05:06") (lchars "PM") = some (lchars "17:06") := by
  refine ⟨?_, by decide, by decide, by decide⟩
  intro time ampm p0 p1 rest n hsplit hparse
  have harith : (if ampm = lchars "PM" then (if n = 12 then 0 else n) + 12
        else (if n = 12 then 0 else n)) =
      (if n = 12 then 0 else n) + (if ampm = lchars "PM" then 12 else 0) := by
    by_cases hpm : ampm = lchars "PM" <;> simp [hpm]
  simp only [convert_time_12_to_24, hsplit, hparse]
  cases rest with
  | nil => simp [harith]
  | cons s rest2 => simp [harith]

/-- Witness for C8: the general conversion shape applied at ("05:06", "PM")
evaluates to "17:06". -/
theorem convert_time_12_to_24_spec_witness :
    convert_time_12_to_24 (lchars "05:06") (lchars "PM") = some (lchars "17:06") := by
  rw [convert_time_12_to_24_spec.1 (lchars "05:06") (lchars "PM") (lchars "05") (lchars "06")
    [] 5 (by decide) (by decide)]
  decide

/-! ## Derivative-matcher lemmas -/

theorem fmatch_emp : ∀ s : List Char, fmatch .emp s = false
  | [] => rfl
  | _ :: s => fmatch_emp s

theorem fmatch_alt_of_altS (s : List Char)
    (halt : ∀ a b : Regex, fmatch (.alt a b) s = (fmatch a s || fmatch b s)) :
    ∀ a b : Regex, fmatch (altS a b) s = (fmatch a s || fmatch b s) := by
  intro a b
  cases a <;> cases b <;> simp only [altS] <;>
    first
    | exact halt _ _
    | simp [fmatch_emp]

theorem fmatch_alt : ∀ (s : List Char) (a b : Regex),
    fmatch (.alt a b) s = (fmatch a s || fmatch b s)
  | [], _, _ => rfl
  | c :: s, a, b =>
    fmatch_alt_of_altS s (fun x y => fmatch_alt s x y) (deriv a c) (deriv b c)

theorem fmatch_altS (s : List Char) (a b : Regex) :
    fmatch (altS a b) s = (fmatch a s || fmatch b s) :=
  fmatch_alt_of_altS s (fun x y => fmatch_alt s x y) a b

theorem fmatch_cat_emp_left : ∀ (s : List Char) (b : Regex), fmatch (.cat .emp b) s = false
  | [], _ => rfl
  | _ :: s, _ => fmatch_emp s

theorem fmatch_cons (r : Regex) (c : Char) (s : List Char) :
    fmatch r (c :: s) = fmatch (deriv r c) s := rfl

theorem deriv_cat_eps (b : Regex) (c : Char) : deriv (.cat .eps b) c = deriv b c := by
  simp [deriv, nullable, catS, altS]

theorem fmatch_cat_eps_left : ∀ (s : List Char) (b : Regex), fmatch (.cat .eps b) s = fmatch b s
  | [], _ => rfl
  | c :: s, b => by rw [fmatch_cons, fmatch_cons, deriv_cat_eps]

theorem fmatch_catS (s : List Char) (a b : Regex) :
    fmatch (catS a b) s = fmatch (.cat a b) s := by
  cases a <;> simp only [catS] <;>
    first
    | rfl
    | rw [fmatch_emp, fmatch_cat_emp_left]
    | rw [fmatch_cat_eps_left]

theorem fmatch_cat_append : ∀ (u : List Char) (r1 r2 : Regex) (v : List Char),
    fmatch r1 u = true → fmatch r2 v = true → fmatch (.cat r1 r2) (u ++ v) = true
  | [], r1, r2, v, h1, h2 => by
    cases v with
    | nil =>
      show (nullable r1 && nullable r2) = true
      rw [show nullable r1 = true from h1, Bool.true_and]
      exact h2
    | cons c cs =>
      show fmatch (deriv (.cat r1 r2) c) cs = true
      have hd : deriv (.cat r1 r2) c = altS (catS (deriv r1 c) r2) (deriv r2 c) := by
        simp [deriv, show nullable r1 = true from h1]
      rw [hd, fmatch_altS]
      have h2' : fmatch (deriv r2 c) cs = true := h2
      simp [h2']
  | c :: u, r1, r2, v, h1, h2 => by
    show fmatch (deriv (.cat r1 r2) c) (u ++ v) = true
    cases hn : nullable r1 with
    | true =>
      have hd : deriv (.cat r1 r2) c = altS (catS (deriv r1 c) r2) (deriv r2 c) := by
        simp [deriv, hn]
      rw [hd, fmatch_altS, fmatch_catS]
      have ih := fmatch_cat_append u (deriv r1 c) r2 v h1 h2
      simp [ih]
    | false =>
      have hd : deriv (.cat r1 r2) c = catS (deriv r1 c) r2 := by
        simp [deriv, hn]
      rw [hd, fmatch_catS]
      exact fmatch_cat_append u (deriv r1 c) r2 v h1 h2

theorem pmatch_of_fmatch : ∀ (u : List Char) (r : Regex) (v : List Char),
    fmatch r u = true → pmatch r (u ++ v) = true
  | [], r, v, h => by
    cases v with
    | nil => exact h
    | cons c cs =>
      show (nullable r || pmatch (deriv r c) cs) = true
      rw [show nullable r = true from h]
      rfl
  | c :: u, r, v, h => by
    show (nullable r || pmatch (deriv r c) (u ++ v)) = true
    rw [pmatch_of_fmatch u (deriv r c) v h]
    simp

theorem pmatch_append : ∀ (s : List Char) (r : Regex) (t : List Char),
    pmatch r s = true → pmatch r (s ++ t) = true
  | [], r, t, h => pmatch_of_fmatch [] r t h
  | c :: s, r, t, h => by
    show (nullable r || pmatch (deriv r c) (s ++ t)) = true
    rcases Bool.or_eq_true_iff.mp h with hn | hp
    · rw [hn]; rfl
    · rw [pmatch_append s (deriv r c) t hp]; simp

theorem fmatch_cls_single (p : Char → Bool) (c : Char) (h : p c = true) :
    fmatch (.cls p) [c] = true := by
  show nullable (if p c then Regex.eps else Regex.emp) = true
  rw [h]
  rfl

theorem fmatch_cat_single (p : Char → Bool) (c : Char) (r : Regex) (s : List Char)
    (hc : p c = true) (hr : fmatch r s = true) : fmatch (.cat (.cls p) r) (c :: s) = true :=
  fmatch_cat_append [c] (.cls p) r s (fmatch_cls_single p c hc) hr

theorem fmatch_star_nil (r : Regex) (lz : Bool) : fmatch (.star r lz) [] = true := rfl

theorem fmatch_optG_nil (r : Regex) : fmatch (optG r) [] = true := by
  show (nullable r || true) = true
  exact Bool.or_true _

theorem fmatch_optG_of (r : Regex) (s : List Char) (h : fmatch r s = true) :
    fmatch (optG r) s = true := by
  show fmatch (.alt r .eps) s = true
  rw [fmatch_alt]
  simp [h]

theorem fmatch_group_eq : ∀ (s : List Char) (n : Nat) (r : Regex),
    fmatch (.group n r) s = fmatch r s
  | [], _, _ => rfl
  | _ :: _, _, _ => rfl

theorem fmatch_rep14 (g : List Char) (hdig : ∀ c ∈ g, c.isDigit = true)
    (hlen1 : 1 ≤ g.length) (hlen4 : g.length ≤ 4) : fmatch (rep14 rxDigit) g = true := by
  rcases g with - | ⟨a, - | ⟨b, - | ⟨c, - | ⟨d, - | ⟨e, t⟩⟩⟩⟩⟩
  · simp at hlen1
  · exact fmatch_cat_single Char.isDigit a _ [] (hdig a (by simp)) (fmatch_optG_nil _)
  · exact fmatch_cat_single Char.isDigit a _ [b] (hdig a (by simp))
      (fmatch_optG_of _ [b]
        (fmatch_cat_single Char.isDigit b _ [] (hdig b (by simp)) (fmatch_optG_nil _)))
  · exact fmatch_cat_single Char.isDigit a _ [b, c] (hdig a (by simp))
      (fmatch_optG_of _ [b, c]
        (fmatch_cat_single Char.isDigit b _ [c] (hdig b (by simp))
          (fmatch_optG_of _ [c]
            (fmatch_cat_single Char.isDigit c _ [] (hdig c (by simp)) (fmatch_optG_nil _)))))
  · exact fmatch_cat_single Char.isDigit a _ [b, c, d] (hdig a (by simp))
      (fmatch_optG_of _ [b, c, d]
        (fmatch_cat_single Char.isDigit b _ [c, d] (hdig b (by simp))
          (fmatch_optG_of _ [c, d]
            (fmatch_cat_single Char.isDigit c _ [d] (hdig c (by simp))
              (fmatch_optG_of _ [d]
                (fmatch_cls_single Char.isDigit d (hdig d (by simp))))))))
  · simp at hlen4

theorem fmatch_rep12 (g : List Char) (hdig : ∀ c ∈ g, c.isDigit = true)
    (hlen1 : 1 ≤ g.length) (hlen2 : g.length ≤ 2) : fmatch (rep12 rxDigit) g = true := by
  rcases g with - | ⟨a, - | ⟨b, - | ⟨c, t⟩⟩⟩
  · simp at hlen1
  · exact fmatch_cat_single Char.isDigit a _ [] (hdig a (by simp)) (fmatch_optG_nil _)
  · exact fmatch_cat_single Char.isDigit a _ [b] (hdig a (by simp))
      (fmatch_optG_of _ [b] (fmatch_cls_single Char.isDigit b (hdig b (by simp))))
  · simp at hlen2

theorem fmatch_dateToken (g1 g2 g3 : List Char) (s1 s2 : Char)
    (h1 : fmatch (rep14 rxDigit) g1 = true) (h2 : fmatch (rep14 rxDigit) g2 = true)
    (h3 : fmatch (rep14 rxDigit) g3 = true)
    (hs1 : isDateSep s1 = true) (hs2 : isDateSep s2 = true) :
    fmatch rxDateToken (g1 ++ s1 :: (g2 ++ s2 :: g3)) = true := by
  have t1 : fmatch (.cat (optG rxSpaceCls) (rep14 rxDigit)) g3 = true :=
    fmatch_cat_append [] (optG rxSpaceCls) (rep14 rxDigit) g3 (fmatch_optG_nil _) h3
  have t2 : fmatch (.cat rxDateSep (.cat (optG rxSpaceCls) (rep14 rxDigit)))
      (s2 :: g3) = true :=
    fmatch_cat_single isDateSep s2 _ g3 hs2 t1
  have t3 : fmatch (.cat (rep14 rxDigit)
        (.cat rxDateSep (.cat (optG rxSpaceCls) (rep14 rxDigit))))
      (g2 ++ s2 :: g3) = true :=
    fmatch_cat_append g2 _ _ (s2 :: g3) h2 t2
  have t4 : fmatch (.cat (optG rxSpaceCls) (.cat (rep14 rxDigit)
        (.cat rxDateSep (.cat (optG rxSpaceCls) (rep14 rxDigit)))))
      (g2 ++ s2 :: g3) = true :=
    fmatch_cat_append [] _ _ (g2 ++ s2 :: g3) (fmatch_optG_nil _) t3
  have t5 : fmatch (.cat rxDateSep (.cat (optG rxSpaceCls) (.cat (rep14 rxDigit)
        (.cat rxDateSep (.cat (optG rxSpaceCls) (rep14 rxDigit))))))
      (s1 :: (g2 ++ s2 :: g3)) = true :=
    fmatch_cat_single isDateSep s1 _ (g2 ++ s2 :: g3) hs1 t4
  exact fmatch_cat_append g1 _ _ (s1 :: (g2 ++ s2 :: g3)) h1 t5

theorem fmatch_timeToken (hh mm : List Char)
    (hH : fmatch (rep12 rxDigit) hh = true) (hM : fmatch (rep12 rxDigit) mm = true) :
    fmatch rxTimeToken (hh ++ ':' :: mm) = true := by
  have t0 : fmatch (.cat (rep12 rxDigit) (optG (.cat rxTimeSep (rep12 rxDigit))))
      (mm ++ []) = true :=
    fmatch_cat_append mm _ _ [] hM (fmatch_optG_nil _)
  rw [List.append_nil] at t0
  have t1 : fmatch (.cat rxTimeSep (.cat (rep12 rxDigit)
        (optG (.cat rxTimeSep (rep12 rxDigit))))) (':' :: mm) = true :=
    fmatch_cat_single isTimeSep ':' _ mm (by decide) t0
  exact fmatch_cat_append hh _ _ (':' :: mm) hH t1

theorem order_date_components_eq (date : List Char) (a b c : List Char)
    (tl : List (List Char))
    (hsplit : (splitOnPred isDateSep date).map trim = a :: b :: c :: tl) :
    order_date_components date =
      (if c.length = max a.length (max b.length c.length) then some (a, b, c)
       else if b.length = max a.length (max b.length c.length) then some (a, c, b)
       else some (b, c, a)) := by
  unfold order_date_components
  rw [hsplit]

theorem mem_of_getLast?_eq {α : Type} {l : List α} {x : α} (h : l.getLast? = some x) :
    x ∈ l := by
  have hx : x ∈ l.getLast? := by simp [Option.mem_def, h]
  obtain ⟨hne, heq⟩ := List.mem_getLast?_eq_getLast hx
  rw [heq]
  exact List.getLast_mem hne

/-! ## Claims C5, C6, C7 -/

theorem segment_step_preserves (acc : List RawMessage) (line : List Char)
    (hacc : ∀ m ∈ acc, pmatch (if m.system then REGEX_SYSTEM else REGEX_USER) m.msg = true) :
    ∀ m ∈ segment_step acc line,
      pmatch (if m.system then REGEX_SYSTEM else REGEX_USER) m.msg = true := by
  intro m hm
  unfold segment_step at hm
  split at hm
  · next huser =>
    rcases List.mem_append.mp hm with h | h
    · exact hacc m h
    · rcases List.mem_singleton.mp h with rfl
      simpa using huser
  · next hnuser =>
    split at hm
    · next hsys =>
      rcases List.mem_append.mp hm with h | h
      · exact hacc m h
      · rcases List.mem_singleton.mp h with rfl
        simpa using hsys
    · next hnsys =>
      cases hlast : acc.getLast? with
      | none =>
        rw [hlast] at hm
        exact hacc m hm
      | some m0 =>
        rw [hlast] at hm
        rcases List.mem_append.mp hm with h | h
        · exact hacc m (List.dropLast_subset acc h)
        · rcases List.mem_singleton.mp h with rfl
          have hm0 := hacc m0 (mem_of_getLast?_eq hlast)
          exact pmatch_append m0.msg _ ('\n' :: line) hm0

/-- C6: every RawMessage emitted by the segmenter — including messages whose
bodies were extended by merged continuation lines — still matches the
classification pattern corresponding to its system flag (the same pattern
used for extraction), so extraction's `captures(..).unwrap()` has a match
for every segmenter-produced message. -/
theorem segmenter_output_matches_patterns (lines : List (List Char)) :
    ∀ m ∈ make_array_of_messages lines,
      pmatch (if m.system then REGEX_SYSTEM else REGEX_USER) m.msg = true := by
  have main : ∀ (ls : List (List Char)) (acc : List RawMessage),
      (∀ m ∈ acc, pmatch (if m.system then REGEX_SYSTEM else REGEX_USER) m.msg = true) →
      ∀ m ∈ ls.foldl segment_step acc,
        pmatch (if m.system then REGEX_SYSTEM else REGEX_USER) m.msg = true := by
    intro ls
    induction ls with
    | nil => intro acc hacc; simpa using hacc
    | cons l ls ih => intro acc hacc; exact ih _ (segment_step_preserves acc l hacc)
  intro m hm
  exact main lines [] (by simp) m hm

/-- Witness for C6: the merged two-line user message of Scenario A still
matches the user pattern. -/
theorem segmenter_output_matches_patterns_witness :
    pmatch REGEX_USER (lchars "23/06/2018, 01:55 p.m. - Loris: one\ntwo") = true := by
  have h := segmenter_output_matches_patterns
    [lchars "23/06/2018, 01:55 p.m. - Loris: one", lchars "two"]
    ⟨false, lchars "23/06/2018, 01:55 p.m. - Loris: one\ntwo"⟩
    (by decide)
  simpa using h

/-- C5: the segmenter classifies each line in order — a line matching the
user pattern starts a non-system message (tested before the system pattern),
a line matching only the system pattern starts a system message, and any
other line is appended as a newline plus its text to the most recently
started message, or discarded when none exists; segmenting the two Scenario
A lines yields exactly one non-system message whose extracted body is
"one\ntwo". -/
theorem segmenter_classification_and_merge :
    (∀ (acc : List RawMessage) (line : List Char), pmatch REGEX_USER line = true →
      segment_step acc line = acc ++ [⟨false, line⟩]) ∧
    (∀ (acc : List RawMessage) (line : List Char), pmatch REGEX_USER line = false →
      pmatch REGEX_SYSTEM line = true → segment_step acc line = acc ++ [⟨true, line⟩]) ∧
    (∀ (acc : List RawMessage) (line : List Char) (m : RawMessage),
      pmatch REGEX_USER line = false → pmatch REGEX_SYSTEM line = false →
      acc.getLast? = some m →
      segment_step acc line = acc.dropLast ++ [⟨m.system, m.msg ++ '\n' :: line⟩]) ∧
    (∀ line : List Char, pmatch REGEX_USER line = false → pmatch REGEX_SYSTEM line = false →
      segment_step [] line = []) ∧
    make_array_of_messages [lchars "23/06/2018, 01:55 p.m. - Loris: one", lchars "two"] =
      [⟨false, lchars "23/06/2018, 01:55 p.m. - Loris: one\ntwo"⟩] ∧
    (extract_tuple ⟨false, lchars "23/06/2018, 01:55 p.m. - Loris: one\ntwo"⟩).map
      (fun t => t.message) = some (lchars "one\ntwo") := by
  refine ⟨?_, ?_, ?_, ?_, by decide, by decide⟩
  · intro acc line h
    simp [segment_step, h]
  · intro acc line h1 h2
    simp [segment_step, h1, h2]
  · intro acc line m h1 h2 hlast
    simp [segment_step, h1, h2, hlast]
  · intro line h1 h2
    simp [segment_step, h1, h2]

/-- Witness for C5: the user-pattern branch applied to the Scenario A
timestamp line starts a new non-system message. -/
theorem segmenter_classification_and_merge_witness :
    segment_step [] (lchars "23/06/2018, 01:55 p.m. - Loris: one") =
      [⟨false, lchars "23/06/2018, 01:55 p.m. - Loris: one"⟩] :=
  segmenter_classification_and_merge.1 [] (lchars "23/06/2018, 01:55 p.m. - Loris: one")
    (by decide)

/-- C7 counterexample: a line whose date token has only two numeric groups —
with every remaining required component present (time token, delimiter,
content) — is rejected by both composed patterns: the shared clause demands
exactly three numeric groups, not "any number from 2 to 4". -/
theorem shared_regex_rejects_two_group_date :
    pmatch REGEX_SYSTEM (lchars "3/6, 12:00 - a: hello") = false ∧
    pmatch REGEX_USER (lchars "3/6, 12:00 - a: hello") = false ∧
    pmatch REGEX_SYSTEM (lchars "1/2/3/4, 12:00 - a: hello") = false := by
  exact ⟨by decide, by decide, by decide⟩

/-- C7 (amended): for every line whose leading timestamp block has a numeric
date token of exactly three numeric groups of 1-4 digits each, separated by
dash, slash or dot, followed by a comma, a whitespace, a time token, the
space-dash delimiter and arbitrary content, the shared
classification/extraction pattern matches the line; and the captured date
string is split into its (trimmed) parts with a longest part placed last as
the year, the result being a permutation of the first three parts. -/
theorem shared_regex_three_groups_and_year_last :
    (∀ (g1 g2 g3 hh mm rest : List Char) (s1 s2 : Char),
      (∀ c ∈ g1, c.isDigit = true) → 1 ≤ g1.length → g1.length ≤ 4 →
      (∀ c ∈ g2, c.isDigit = true) → 1 ≤ g2.length → g2.length ≤ 4 →
      (∀ c ∈ g3, c.isDigit = true) → 1 ≤ g3.length → g3.length ≤ 4 →
      isDateSep s1 = true → isDateSep s2 = true →
      (∀ c ∈ hh, c.isDigit = true) → 1 ≤ hh.length → hh.length ≤ 2 →
      (∀ c ∈ mm, c.isDigit = true) → 1 ≤ mm.length → mm.length ≤ 2 →
      pmatch REGEX_SYSTEM
        (g1 ++ s1 :: g2 ++ s2 :: g3 ++ ',' :: ' ' :: hh ++ ':' :: mm ++
          ' ' :: '-' :: ' ' :: rest) = true) ∧
    (∀ (date a b c : List Char) (tl : List (List Char)),
      (splitOnPred isDateSep date).map trim = a :: b :: c :: tl →
      ∃ p q r, order_date_components date = some (p, q, r) ∧
        [p, q, r].Perm [a, b, c] ∧
        r.length = max a.length (max b.length c.length)) := by
  constructor
  · intro g1 g2 g3 hh mm rest s1 s2 hd1 h1a h1b hd2 h2a h2b hd3 h3a h3b hs1 hs2
      hdh hha hhb hdm hma hmb
    have hg1 := fmatch_rep14 g1 hd1 h1a h1b
    have hg2 := fmatch_rep14 g2 hd2 h2a h2b
    have hg3 := fmatch_rep14 g3 hd3 h3a h3b
    have hhh := fmatch_rep12 hh hdh hha hhb
    have hmm := fmatch_rep12 mm hdm hma hmb
    have hdate := fmatch_dateToken g1 g2 g3 s1 s2 hg1 hg2 hg3 hs1 hs2
    have htime := fmatch_timeToken hh mm hhh hmm
    -- tail after the time token: no am/pm, no bracket, space-dash delimiter,
    -- final whitespace, empty system body
    have u11 : fmatch rxSpaceCls [' '] = true :=
      fmatch_cls_single rs_whitespace ' ' (by decide)
    have hdelim : fmatch (.cat rxSpaceCls (.cls (fun c => c == '-'))) [' ', '-'] = true :=
      fmatch_cat_single rs_whitespace ' ' _ ['-'] (by decide)
        (fmatch_cls_single _ '-' (by decide))
    have u10 : fmatch (optG (.alt (.cat rxSpaceCls (.cls (fun c => c == '-')))
        (.cls (fun c => c == ':')))) [' ', '-'] = true := by
      apply fmatch_optG_of
      rw [fmatch_alt]
      simp [hdelim]
    have u9 : fmatch (.cat (optG (.alt (.cat rxSpaceCls (.cls (fun c => c == '-')))
        (.cls (fun c => c == ':')))) rxSpaceCls) [' ', '-', ' '] = true :=
      fmatch_cat_append [' ', '-'] _ _ [' '] u10 u11
    have u8 : fmatch (.cat (optG (.cls (fun c => c == ']')))
        (.cat (optG (.alt (.cat rxSpaceCls (.cls (fun c => c == '-')))
          (.cls (fun c => c == ':')))) rxSpaceCls)) [' ', '-', ' '] = true :=
      fmatch_cat_append [] _ _ [' ', '-', ' '] (fmatch_optG_nil _) u9
    have u7 : fmatch (.cat (optG (.cat (.cls (fun c => rs_whitespace c || c == ' '))
          (.group 3 rxAmpmToken)))
        (.cat (optG (.cls (fun c => c == ']')))
        (.cat (optG (.alt (.cat rxSpaceCls (.cls (fun c => c == '-')))
          (.cls (fun c => c == ':')))) rxSpaceCls))) [' ', '-', ' '] = true :=
      fmatch_cat_append [] _ _ [' ', '-', ' '] (fmatch_optG_nil _) u8
    have htime' : fmatch (.group 2 rxTimeToken) (hh ++ ':' :: mm) = true := by
      rw [fmatch_group_eq]
      exact htime
    have u6 : fmatch (.cat (.group 2 rxTimeToken)
        (.cat (optG (.cat (.cls (fun c => rs_whitespace c || c == ' '))
          (.group 3 rxAmpmToken)))
        (.cat (optG (.cls (fun c => c == ']')))
        (.cat (optG (.alt (.cat rxSpaceCls (.cls (fun c => c == '-')))
          (.cls (fun c => c == ':')))) rxSpaceCls))))
        ((hh ++ ':' :: mm) ++ [' ', '-', ' ']) = true :=
      fmatch_cat_append (hh ++ ':' :: mm) _ _ [' ', '-', ' '] htime' u7
    have u5 : fmatch (.cat (.star rxNonDigit true)
        (.cat (.group 2 rxTimeToken)
        (.cat (optG (.cat (.cls (fun c => rs_whitespace c || c == ' '))
          (.group 3 rxAmpmToken)))
        (.cat (optG (.cls (fun c => c == ']')))
        (.cat (optG (.alt (.cat rxSpaceCls (.cls (fun c => c == '-')))
          (.cls (fun c => c == ':')))) rxSpaceCls)))))
        ((hh ++ ':' :: mm) ++ [' ', '-', ' ']) = true :=
      fmatch_cat_append [] _ _ _ (fmatch_star_nil _ _) u6
    have u4 : fmatch (.cat rxSpaceCls (.cat (.star rxNonDigit true)
        (.cat (.group 2 rxTimeToken)
        (.cat (optG (.cat (.cls (fun c => rs_whitespace c || c == ' '))
          (.group 3 rxAmpmToken)))
        (.cat (optG (.cls (fun c => c == ']')))
        (.cat (optG (.alt (.cat rxSpaceCls (.cls (fun c => c == '-')))
          (.cls (fun c => c == ':')))) rxSpaceCls))))))
        (' ' :: ((hh ++ ':' :: mm) ++ [' ', '-', ' '])) = true :=
      fmatch_cat_single rs_whitespace ' ' _ _ (by decide) u5
    have u3 : fmatch (.cat (optG (.cls (fun c => c == ',' || c == '.')))
        (.cat rxSpaceCls (.cat (.star rxNonDigit true)
        (.cat (.group 2 rxTimeToken)
        (.cat (optG (.cat (.cls (fun c => rs_whitespace c || c == ' '))
          (.group 3 rxAmpmToken)))
        (.cat (optG (.cls (fun c => c == ']')))
        (.cat (optG (.alt (.cat rxSpaceCls (.cls (fun c => c == '-')))
          (.cls (fun c => c == ':')))) rxSpaceCls)))))))
        (',' :: ' ' :: ((hh ++ ':' :: mm) ++ [' ', '-', ' '])) = true :=
      fmatch_cat_append [','] _ _ _
        (fmatch_optG_of _ [','] (fmatch_cls_single _ ',' (by decide))) u4
    have hdate' : fmatch (.group 1 rxDateToken) (g1 ++ s1 :: (g2 ++ s2 :: g3)) = true := by
      rw [fmatch_group_eq]
      exact hdate
    have u2 : fmatch (.cat (.group 1 rxDateToken)
        (.cat (optG (.cls (fun c => c == ',' || c == '.')))
        (.cat rxSpaceCls (.cat (.star rxNonDigit true)
        (.cat (.group 2 rxTimeToken)
        (.cat (optG (.cat (.cls (fun c => rs_whitespace c || c == ' '))
          (.group 3 rxAmpmToken)))
        (.cat (optG (.cls (fun c => c == ']')))
        (.cat (optG (.alt (.cat rxSpaceCls (.cls (fun c => c == '-')))
          (.cls (fun c => c == ':')))) rxSpaceCls))))))))
        ((g1 ++ s1 :: (g2 ++ s2 :: g3)) ++
          ',' :: ' ' :: ((hh ++ ':' :: mm) ++ [' ', '-', ' '])) = true :=
      fmatch_cat_append (g1 ++ s1 :: (g2 ++ s2 :: g3)) _ _ _ hdate' u3
    have u1 : fmatch (.cat (optG (.cls (fun c => c == '[')))
        (.cat (.group 1 rxDateToken)
        (.cat (optG (.cls (fun c => c == ',' || c == '.')))
        (.cat rxSpaceCls (.cat (.star rxNonDigit true)
        (.cat (.group 2 rxTimeToken)
        (.cat (optG (.cat (.cls (fun c => rs_whitespace c || c == ' '))
          (.group 3 rxAmpmToken)))
        (.cat (optG (.cls (fun c => c == ']')))
        (.cat (optG (.alt (.cat rxSpaceCls (.cls (fun c => c == '-')))
          (.cls (fun c => c == ':')))) rxSpaceCls)))))))))
        ((g1 ++ s1 :: (g2 ++ s2 :: g3)) ++
          ',' :: ' ' :: ((hh ++ ':' :: mm) ++ [' ', '-', ' '])) = true :=
      fmatch_cat_append [] _ _ _ (fmatch_optG_nil _) u2
    have u0 : fmatch SHARED_REGEX
        ((g1 ++ s1 :: (g2 ++ s2 :: g3)) ++
          ',' :: ' ' :: ((hh ++ ':' :: mm) ++ [' ', '-', ' '])) = true :=
      fmatch_cat_append [] _ _ _ (fmatch_star_nil _ _) u1
    have hmsg : fmatch MESSAGE_REGEX [] = true := rfl
    have hsys : fmatch REGEX_SYSTEM
        (((g1 ++ s1 :: (g2 ++ s2 :: g3)) ++
          ',' :: ' ' :: ((hh ++ ':' :: mm) ++ [' ', '-', ' '])) ++ []) = true :=
      fmatch_cat_append _ _ _ [] u0 hmsg
    rw [List.append_nil] at hsys
    have hfin := pmatch_of_fmatch _ REGEX_SYSTEM rest hsys
    simpa [List.append_assoc] using hfin
  · intro date a b c tl hsplit
    rw [order_date_components_eq date a b c tl hsplit]
    by_cases hc : c.length = max a.length (max b.length c.length)
    · rw [if_pos hc]
      exact ⟨a, b, c, rfl, List.Perm.refl _, hc⟩
    · rw [if_neg hc]
      by_cases hb : b.length = max a.length (max b.length c.length)
      · rw [if_pos hb]
        exact ⟨a, c, b, rfl, List.Perm.cons a (List.Perm.swap b c []), hb⟩
      · rw [if_neg hb]
        have ha : a.length = max a.length (max b.length c.length) := by
          rcases max_choice a.length (max b.length c.length) with h | h
          · exact h.symm
          · rcases max_choice b.length c.length with h2 | h2
            · exact absurd (h.trans h2).symm hb
            · exact absurd (h.trans h2).symm hc
        exact ⟨b, c, a, rfl,
          ((List.Perm.cons b (List.Perm.swap a c [])).trans (List.Perm.swap a b [c])), ha⟩

/-- Witness for C7 (amended): a concrete three-group line matches, and the
concrete date "3/6/2018" is reordered with its longest part "2018" last. -/
theorem shared_regex_three_groups_and_year_last_witness :
    pmatch REGEX_SYSTEM (lchars "3" ++ '/' :: lchars "6" ++ '/' :: lchars "2018" ++
      ',' :: ' ' :: lchars "12" ++ ':' :: lchars "00" ++
      ' ' :: '-' :: ' ' :: lchars "hello") = true ∧
    ∃ p q r, order_date_components (lchars "3/6/2018") = some (p, q, r) ∧
      [p, q, r].Perm [lchars "3", lchars "6", lchars "2018"] ∧
      r.length = max (lchars "3").length (max (lchars "6").length (lchars "2018").length) :=
  ⟨shared_regex_three_groups_and_year_last.1 (lchars "3") (lchars "6") (lchars "2018")
      (lchars "12") (lchars "00") (lchars "hello") '/' '/'
      (by decide) (by decide) (by decide) (by decide) (by decide) (by decide)
      (by decide) (by decide) (by decide) (by decide) (by decide)
      (by decide) (by decide) (by decide) (by decide) (by decide) (by decide),
    shared_regex_three_groups_and_year_last.2 (lchars "3/6/2018")
      (lchars "3") (lchars "6") (lchars "2018") [] (by decide)⟩

/-! ## Claim C9 -/

theorem enumFrom_map_snd {α β : Type} (f : α → β) :
    ∀ (n : Nat) (l : List α), (List.enumFrom n l).map (fun p => f p.2) = l.map f
  | _, [] => rfl
  | n, a :: l => by
    simp only [List.enumFrom, List.map]
    rw [enumFrom_map_snd f (n + 1) l]

theorem enum_map_snd {α β : Type} (f : α → β) (l : List α) :
    (List.enum l).map (fun p => f p.2) = l.map f :=
  enumFrom_map_snd f 0 l

/-- C9: for every batch of raw messages and every setting of the daysFirst
and parseAttachments options, parsing with debug = true produces exactly the
same result as parsing with debug = false: the sequential enumerated debug
path and the parallel non-debug path perform the same per-message
transformations in the same order (the debug prints are pure output). -/
theorem parse_messages_debug_independent (messages : List RawMessage)
    (df : Option Bool) (pa : Bool) :
    parse_messages messages ⟨df, pa, true⟩ = parse_messages messages ⟨df, pa, false⟩ := by
  unfold parse_messages
  simp only [enum_map_snd]
  simp

end WcParser
